import Mathlib

/-!
Verification of the brand-visibility analysis core of founders-toolkit-api.

Go strings are modelled as `List Char` (the relevant characters are ASCII, so
byte positions and character positions coincide on every input the proofs
touch); Go's `float64` arithmetic on scores is modelled exactly over `ℚ`;
Go's `int` is `Int`; fallible Go functions return `Except` / `Option`.
External effects (the OpenAI calls, `encoding/json` decoding, the database)
are passed in as explicit oracle arguments so that the control flow of the
Go functions around them can be stated and proved.
-/

namespace FoundersToolkit

/-- Go string model. -/
abbrev GoStr := List Char

/-- The backtick character, written numerically. -/
def fenceChar : Char := Char.ofNat 96

/-- The three-character code-fence marker. -/
def fence3 : GoStr := [fenceChar, fenceChar, fenceChar]

/-- ASCII white space, as recognised by `strings.TrimSpace` on ASCII input
(`' '`, `'\t'`, `'\n'`, `'\v'`, `'\f'`, `'\r'`). -/
def isSpaceGo (c : Char) : Bool :=
  c = ' ' || c = '\t' || c = '\n' || c = Char.ofNat 11 || c = Char.ofNat 12 || c = '\r'

/-- Model of `strings.TrimSpace`: drop white space from both ends. -/
def goTrimSpace (s : GoStr) : GoStr :=
  ((s.dropWhile isSpaceGo).reverse.dropWhile isSpaceGo).reverse

/-- Model of `strings.HasPrefix(s, "\x60\x60\x60")`. -/
def fenceAtStart (s : GoStr) : Bool := s.take 3 = fence3

/-- Model of `strings.HasSuffix(s, "\x60\x60\x60")`, via the reversed string. -/
def fenceAtEnd (s : GoStr) : Bool := s.reverse.take 3 = fence3

/-- Drop the first line: `if idx := strings.Index(s, "\n"); idx >= 0 { s =
s[idx+1:] } else { s = "" }` — the fence-opening line is removed whole. -/
def dropFirstLine (s : GoStr) : GoStr :=
  match s.findIdx? (fun c => c = '\n') with
  | some i => s.drop (i + 1)
  | none => []

/-- Model of `strings.TrimSuffix(s, "\x60\x60\x60")` when the suffix is present:
remove the last three characters. -/
def dropFence3AtEnd (s : GoStr) : GoStr := s.take (s.length - 3)

/-- The contribution of one character to the bracket nesting depth, exactly
as in the `switch` of `extractJSONFromText`: `'{'` and `'['` increment,
`'}'` and `']'` decrement, everything else is neutral. -/
def bracketDelta (c : Char) : Int :=
  if c = '{' || c = '[' then 1 else if c = '}' || c = ']' then -1 else 0

/-- A closing bracket. -/
def isCloseBracket (c : Char) : Bool := c = '}' || c = ']'

/-- An opening bracket. -/
def isOpenBracket (c : Char) : Bool := c = '{' || c = '['

/-- The scanning loop of `extractJSONFromText`, one step per character.
`d` is the running depth, `i` the index of the current character, `acc`
the last index at which the depth returned to zero (Go's `last`, with
`none` standing for the initial `-1`).  Because Go's `break` inside a
`switch` leaves only the `switch`, the loop always runs to the end of the
string and `acc` ends up at the LAST index where the depth becomes zero. -/
def lastZeroAux : GoStr → Int → Nat → Option Nat → Option Nat
  | [], _, _, acc => acc
  | c :: rest, d, i, acc =>
    if isOpenBracket c then lastZeroAux rest (d + 1) (i + 1) acc
    else if isCloseBracket c then
      lastZeroAux rest (d - 1) (i + 1) (if d - 1 = 0 then some i else acc)
    else lastZeroAux rest d (i + 1) acc

/-- Model of `strings.IndexByte(s, '\x7b')`, with fallback to `'['`: the position the
scan starts from, or `none` when the string has no opening bracket. -/
def bracketStart (s : GoStr) : Option Nat :=
  match s.findIdx? (fun c => c = '{') with
  | some i => some i
  | none => s.findIdx? (fun c => c = '[')

/-- The fence-stripping-and-trimming front end of `extractJSONFromText`
(the statements of the Go function before the bracket search, in source
order): trim, drop the fence-opening line if the text starts with a fence,
remove a trailing fence marker if present, trim again. -/
def strippedInput (s : GoStr) : GoStr :=
  let s1 := goTrimSpace s
  let s2 := if fenceAtStart s1 then dropFirstLine s1 else s1
  let s3 := if fenceAtEnd s2 then dropFence3AtEnd s2 else s2
  goTrimSpace s3

/-- Model of `extractJSONFromText` (Go, package scanmanager): strip fences and trim,
find the first `'{'` (else the first `'['`), scan forward counting bracket
depth, and cut the string at the last index where the depth returns to
zero; when there is no bracket or the depth never returns to zero, the
stripped-and-trimmed string is returned unchanged.  Total by construction:
it returns a string for every input. -/
def extractJSONFromText (s : GoStr) : GoStr :=
  let s4 := strippedInput s
  match bracketStart s4 with
  | none => s4
  | some k =>
    match lastZeroAux (s4.drop k) 0 0 none with
    | none => s4
    | some r => goTrimSpace ((s4.drop k).take (r + 1))

/-- Running bracket depth after consuming the first `k` characters of `l`. -/
def depthAfter (l : GoStr) (k : Nat) : Int :=
  ((l.take k).map bracketDelta).sum

/-- Position `j` of `l` closes the scan: it holds a closing bracket and the
depth returns to zero right after it.  This is the spec's reading of
"the position where the depth returns to zero". -/
def closesAtZero (l : GoStr) (j : Nat) : Bool :=
  j < l.length && isCloseBracket (l.getD j ' ') && depthAfter l (j + 1) = 0

/-- Declarative counterpart of the scanning loop, written from the spec's
words ("the longest balanced ... substring" / "the substring ending where
depth returns to zero"): the largest position at which the depth returns to
zero on a closing bracket, found by searching the positions from the top. -/
def lastZeroSpec (l : GoStr) : Option Nat :=
  (List.range l.length).reverse.find? (closesAtZero l)

/-- Rendering of `extractJSONFromText` as the spec describes it: strip fences and trim;
locate the first `'{'` (else `'['`); return the trimmed substring from
there to the last position where the bracket depth returns to zero; if no
such closing position exists, return the trimmed input unchanged. -/
def extractJSONSpec (s : GoStr) : GoStr :=
  let t := strippedInput s
  match bracketStart t with
  | none => t
  | some k =>
    match lastZeroSpec (t.drop k) with
    | none => t
    | some r => goTrimSpace ((t.drop k).take (r + 1))

/-! ### The scanning loop, characterised -/

/-- Structured recursion equivalent to the scanning loop: the depth update
is folded into one step and the result index is relative to the scan
start. -/
def lastZeroRel : GoStr → Int → Option Nat
  | [], _ => none
  | c :: rest, d =>
    let d' := if isOpenBracket c then d + 1 else if isCloseBracket c then d - 1 else d
    match lastZeroRel rest d' with
    | some j => some (j + 1)
    | none => if isCloseBracket c ∧ d' = 0 then some 0 else none

theorem depth_step (c : Char) (d : Int) :
    (if isOpenBracket c then d + 1 else if isCloseBracket c then d - 1 else d)
      = d + bracketDelta c := by
  simp only [bracketDelta, isOpenBracket, isCloseBracket]
  by_cases h1 : (decide (c = '{') || decide (c = '[')) = true
  · simp [h1]
  · by_cases h2 : (decide (c = '}') || decide (c = ']')) = true
    · simp only [if_neg h1, if_pos h2]
      ring
    · simp only [if_neg h1, if_neg h2]
      ring

theorem lastZeroAux_eq_rel (l : GoStr) : ∀ (d : Int) (i : Nat) (acc : Option Nat),
    lastZeroAux l d i acc =
      (match lastZeroRel l d with
       | some j => some (i + j)
       | none => acc) := by
  induction l with
  | nil => intro d i acc; rfl
  | cons c rest ih =>
    intro d i acc
    by_cases ho : isOpenBracket c
    · have hc : ¬ isCloseBracket c = true := by
        simp only [isOpenBracket] at ho
        rcases Bool.or_eq_true_iff.mp ho with h | h <;>
          simp only [decide_eq_true_eq] at h <;> subst h <;> decide
      simp only [lastZeroAux, lastZeroRel, if_pos ho, if_neg hc, ih]
      cases lastZeroRel rest (d + 1) with
      | none => simp [hc]
      | some j => simp [Nat.add_assoc, Nat.add_comm 1 j]
    · by_cases hc : isCloseBracket c
      · simp only [lastZeroAux, lastZeroRel, if_neg ho, if_pos hc, ih]
        cases lastZeroRel rest (d - 1) with
        | none =>
          by_cases hz : d - 1 = 0 <;> simp [hc, hz]
        | some j => simp [Nat.add_assoc, Nat.add_comm 1 j]
      · simp only [lastZeroAux, lastZeroRel, if_neg ho, if_neg hc, ih]
        cases lastZeroRel rest d with
        | none => simp [hc]
        | some j => simp [Nat.add_assoc, Nat.add_comm 1 j]

theorem lastZeroAux_zero (l : GoStr) : lastZeroAux l 0 0 none = lastZeroRel l 0 := by
  rw [lastZeroAux_eq_rel]
  cases lastZeroRel l 0 <;> simp

/-- Version of `closesAtZero` for a scan begun at depth `d`. -/
def closesAtZeroD (l : GoStr) (d : Int) (j : Nat) : Prop :=
  j < l.length ∧ isCloseBracket (l.getD j ' ') = true ∧ d + depthAfter l (j + 1) = 0

theorem depthAfter_cons_succ (c : Char) (rest : GoStr) (k : Nat) :
    depthAfter (c :: rest) (k + 1) = bracketDelta c + depthAfter rest k := by
  simp [depthAfter, List.take_succ_cons]

theorem closesAtZeroD_cons_succ (c : Char) (rest : GoStr) (d : Int) (j : Nat) :
    closesAtZeroD (c :: rest) d (j + 1) ↔ closesAtZeroD rest (d + bracketDelta c) j := by
  unfold closesAtZeroD
  rw [depthAfter_cons_succ]
  constructor
  · rintro ⟨h1, h2, h3⟩
    refine ⟨by simpa using h1, by simpa using h2, by linarith⟩
  · rintro ⟨h1, h2, h3⟩
    refine ⟨by simpa using h1, by simpa using h2, by linarith⟩

theorem closesAtZeroD_zero (c : Char) (rest : GoStr) (d : Int) :
    closesAtZeroD (c :: rest) d 0 ↔ (isCloseBracket c = true ∧ d + bracketDelta c = 0) := by
  unfold closesAtZeroD
  have : depthAfter (c :: rest) 1 = bracketDelta c := by
    simp [depthAfter]
  rw [this]
  simp

theorem lastZeroRel_none (l : GoStr) : ∀ (d : Int), lastZeroRel l d = none →
    ∀ j, ¬ closesAtZeroD l d j := by
  induction l with
  | nil =>
    intro d _ j hj
    exact absurd hj.1 (by simp)
  | cons c rest ih =>
    intro d h j
    rw [lastZeroRel] at h
    simp only [depth_step] at h
    cases hrel : lastZeroRel rest (d + bracketDelta c) with
    | some j' => rw [hrel] at h; exact absurd h (by simp)
    | none =>
      rw [hrel] at h
      have hcond : ¬ (isCloseBracket c = true ∧ d + bracketDelta c = 0) := by
        by_contra hco
        rw [if_pos hco] at h
        exact absurd h (by simp)
      cases j with
      | zero => rw [closesAtZeroD_zero]; exact hcond
      | succ j => rw [closesAtZeroD_cons_succ]; exact ih _ hrel j

theorem lastZeroRel_some (l : GoStr) : ∀ (d : Int) (r : Nat), lastZeroRel l d = some r →
    closesAtZeroD l d r ∧ ∀ j, r < j → ¬ closesAtZeroD l d j := by
  induction l with
  | nil => intro d r h; exact absurd h (by simp [lastZeroRel])
  | cons c rest ih =>
    intro d r h
    rw [lastZeroRel] at h
    simp only [depth_step] at h
    cases hrel : lastZeroRel rest (d + bracketDelta c) with
    | some j =>
      rw [hrel] at h
      have hr : r = j + 1 := by simpa using h.symm
      subst hr
      obtain ⟨h1, h2⟩ := ih _ j hrel
      constructor
      · rw [closesAtZeroD_cons_succ]; exact h1
      · intro j' hj'
        match j', hj' with
        | j' + 1, hj' =>
          rw [closesAtZeroD_cons_succ]
          exact h2 j' (by omega)
    | none =>
      rw [hrel] at h
      by_cases hco : isCloseBracket c = true ∧ d + bracketDelta c = 0
      · rw [if_pos hco] at h
        have hr : r = 0 := by simpa using h.symm
        subst hr
        constructor
        · rw [closesAtZeroD_zero]; exact hco
        · intro j' hj'
          match j', hj' with
          | j' + 1, _ =>
            rw [closesAtZeroD_cons_succ]
            exact lastZeroRel_none rest _ hrel j'
      · rw [if_neg hco] at h
        exact absurd h (by simp)

theorem revRangeFind_some {p : Nat → Bool} : ∀ (n r : Nat),
    (List.range n).reverse.find? p = some r →
    p r = true ∧ ∀ j, r < j → j < n → p j = false := by
  intro n
  induction n with
  | zero => intro r h; exact absurd h (by simp)
  | succ n ih =>
    intro r h
    rw [List.range_succ, List.reverse_append] at h
    simp only [List.reverse_cons, List.reverse_nil, List.nil_append,
      List.singleton_append] at h
    by_cases hp : p n
    · rw [List.find?_cons_of_pos _ hp] at h
      have hr : r = n := by simpa using h.symm
      subst hr
      exact ⟨hp, fun j h1 h2 => absurd h1 (by omega)⟩
    · rw [List.find?_cons_of_neg _ hp] at h
      obtain ⟨h1, h2⟩ := ih r h
      refine ⟨h1, fun j hrj hjn => ?_⟩
      rcases Nat.lt_succ_iff_lt_or_eq.mp hjn with h' | h'
      · exact h2 j hrj h'
      · subst h'; simpa using hp

theorem revRangeFind_none {p : Nat → Bool} (n : Nat) :
    (List.range n).reverse.find? p = none ↔ ∀ j, j < n → p j = false := by
  rw [List.find?_eq_none]
  constructor
  · intro h j hj
    simpa using h j (by simpa [List.mem_reverse, List.mem_range] using hj)
  · intro h x hx
    simpa using h x (by simpa [List.mem_reverse, List.mem_range] using hx)

theorem closesAtZero_iff (l : GoStr) (j : Nat) :
    closesAtZero l j = true ↔ closesAtZeroD l 0 j := by
  simp [closesAtZero, closesAtZeroD, and_assoc]

/-- The imperative scanning loop agrees with the declarative "last position
at which the bracket depth returns to zero on a closing bracket". -/
theorem lastZeroRel_eq_spec (l : GoStr) : lastZeroRel l 0 = lastZeroSpec l := by
  cases hrel : lastZeroRel l 0 with
  | none =>
    have hn := lastZeroRel_none l 0 hrel
    symm
    unfold lastZeroSpec
    rw [revRangeFind_none]
    intro j _
    by_contra hc
    exact hn j ((closesAtZero_iff l j).mp (by simpa using hc))
  | some r =>
    obtain ⟨h1, h2⟩ := lastZeroRel_some l 0 r hrel
    cases hs : lastZeroSpec l with
    | none =>
      exfalso
      unfold lastZeroSpec at hs
      rw [revRangeFind_none] at hs
      have hcf := hs r h1.1
      have : ¬ closesAtZeroD l 0 r := by
        rw [← closesAtZero_iff]; simp [hcf]
      exact this h1
    | some r' =>
      obtain ⟨h1', h2'⟩ := revRangeFind_some l.length r' hs
      rcases Nat.lt_trichotomy r r' with hlt | heq | hgt
      · exact absurd ((closesAtZero_iff l r').mp h1') (h2 r' hlt)
      · rw [heq]
      · have hcf := h2' r hgt h1.1
        have : ¬ closesAtZeroD l 0 r := by
          rw [← closesAtZero_iff]; simp [hcf]
        exact absurd h1 this

/-- Claim C2 — For every input string, the JSON Extractor strips a leading
fence line and a trailing fence marker if present, locates the first `'{'`
(or, failing that, the first `'['`), scans forward tracking the nesting
depth of bracket pairs, and returns the trimmed substring ending at the
(last) position where the depth returns to zero; if no such closing
position exists it returns the trimmed input unchanged.  The function is
total, hence never fails.  Stated as: the Go function equals the
declarative description `extractJSONSpec`, whose closing position is
defined as the largest index carrying a closing bracket at which the
running depth is zero. -/
theorem extractJSONFromText_meets_spec (s : GoStr) :
    extractJSONFromText s = extractJSONSpec s := by
  unfold extractJSONFromText extractJSONSpec
  simp only [lastZeroAux_zero, lastZeroRel_eq_spec]

/-! ### Trimming lemmas -/

theorem getLast?_dropWhile {α : Type} (p : α → Bool) :
    ∀ (l : List α), l.dropWhile p ≠ [] → (l.dropWhile p).getLast? = l.getLast? := by
  intro l
  induction l with
  | nil => intro h; simp at h
  | cons c t ih =>
    intro h
    by_cases hp : p c
    · rw [List.dropWhile_cons_of_pos hp] at h ⊢
      rw [ih h]
      cases t with
      | nil => simp at h
      | cons b t' => rw [List.getLast?_cons_cons]
    · rw [List.dropWhile_cons_of_neg hp]

theorem head?_goTrimSpace (l : GoStr) (c : Char) (h : (goTrimSpace l).head? = some c) :
    isSpaceGo c = false := by
  unfold goTrimSpace at h
  rw [List.head?_reverse] at h
  have hbne : (l.dropWhile isSpaceGo).reverse.dropWhile isSpaceGo ≠ [] := by
    intro hc
    rw [hc] at h
    simp at h
  rw [getLast?_dropWhile _ _ hbne, List.getLast?_reverse] at h
  have := List.head?_dropWhile_not isSpaceGo l
  rw [h] at this
  exact this

theorem getLast?_goTrimSpace (l : GoStr) (c : Char) (h : (goTrimSpace l).getLast? = some c) :
    isSpaceGo c = false := by
  unfold goTrimSpace at h
  rw [List.getLast?_reverse] at h
  have := List.head?_dropWhile_not isSpaceGo (l.dropWhile isSpaceGo).reverse
  rw [h] at this
  exact this

theorem dropWhile_eq_self_of_head {α : Type} (p : α → Bool) (l : List α)
    (h : ∀ c, l.head? = some c → p c = false) : l.dropWhile p = l := by
  cases l with
  | nil => rfl
  | cons c t =>
    rw [List.dropWhile_cons_of_neg]
    simp [h c rfl]

theorem goTrimSpace_eq_self (l : GoStr)
    (h1 : ∀ c, l.head? = some c → isSpaceGo c = false)
    (h2 : ∀ c, l.getLast? = some c → isSpaceGo c = false) : goTrimSpace l = l := by
  unfold goTrimSpace
  rw [dropWhile_eq_self_of_head _ _ h1]
  rw [dropWhile_eq_self_of_head _ _ (fun c hc => h2 c (by rwa [List.head?_reverse] at hc))]
  exact List.reverse_reverse l

theorem goTrimSpace_idem (l : GoStr) : goTrimSpace (goTrimSpace l) = goTrimSpace l :=
  goTrimSpace_eq_self _ (head?_goTrimSpace l) (getLast?_goTrimSpace l)

theorem goTrimSpace_strippedInput (s : GoStr) :
    goTrimSpace (strippedInput s) = strippedInput s := by
  unfold strippedInput
  exact goTrimSpace_idem _

/-! ### The scan restricted to the cut segment -/

theorem lastZeroRel_take (l : GoStr) : ∀ (d : Int) (r : Nat), lastZeroRel l d = some r →
    lastZeroRel (l.take (r + 1)) d = some r := by
  induction l with
  | nil => intro d r h; exact absurd h (by simp [lastZeroRel])
  | cons c rest ih =>
    intro d r h
    rw [lastZeroRel] at h
    cases hrel : lastZeroRel rest
        (if isOpenBracket c then d + 1 else if isCloseBracket c then d - 1 else d) with
    | some j =>
      rw [hrel] at h
      have hr : r = j + 1 := by simpa using h.symm
      subst hr
      rw [List.take_succ_cons, lastZeroRel, ih _ j hrel]
    | none =>
      rw [hrel] at h
      by_cases hco : isCloseBracket c = true ∧
          (if isOpenBracket c then d + 1 else if isCloseBracket c then d - 1 else d) = 0
      · obtain ⟨hcl, hd⟩ := hco
        rw [if_pos ⟨hcl, hd⟩] at h
        have hr : r = 0 := by simpa using h.symm
        subst hr
        simp only [List.take_succ_cons, List.take_zero]
        simp [lastZeroRel, hcl]
        simpa [hcl] using hd
      · rw [if_neg hco] at h
        exact absurd h (by simp)

/-! ### Idempotence of the extractor on fence-free outputs -/

theorem open_not_space {c : Char} (h : isOpenBracket c = true) : isSpaceGo c = false := by
  simp only [isOpenBracket, Bool.or_eq_true, decide_eq_true_eq] at h
  rcases h with h | h <;> subst h <;> decide

theorem close_not_space {c : Char} (h : isCloseBracket c = true) : isSpaceGo c = false := by
  simp only [isCloseBracket, Bool.or_eq_true, decide_eq_true_eq] at h
  rcases h with h | h <;> subst h <;> decide

theorem strippedInput_eq_self (o : GoStr) (htrim : goTrimSpace o = o)
    (h1 : fenceAtStart o = false) (h2 : fenceAtEnd o = false) :
    strippedInput o = o := by
  unfold strippedInput
  simp only [htrim, h1, h2, Bool.false_eq_true, if_false]

theorem findIdx?_head_true {α : Type} {p : α → Bool} (o : List α) (b : α)
    (h : o.head? = some b) (hp : p b = true) : o.findIdx? p = some 0 := by
  cases o with
  | nil => exact absurd h (by simp)
  | cons c t =>
    have : c = b := by simpa using h
    subst this
    simp [List.findIdx?_cons, hp]

theorem bracketStart_head_open (o : GoStr) (b : Char) (h : o.head? = some b)
    (hnb : ∀ c ∈ o, c ≠ '{') (hb : b = '{' ∨ b = '[') : bracketStart o = some 0 := by
  unfold bracketStart
  rcases hb with hb | hb
  · subst hb
    exact absurd rfl (hnb _ (by cases o <;> simp_all))
  · subst hb
    have hnone : o.findIdx? (fun c => c = '{') = none := by
      rw [List.findIdx?_eq_none_iff]
      intro x hx
      simpa using hnb x hx
    rw [hnone]
    exact findIdx?_head_true o _ h (by simp)

theorem bracketStart_head_brace (o : GoStr) (h : o.head? = some '{') :
    bracketStart o = some 0 := by
  unfold bracketStart
  rw [findIdx?_head_true o _ h (by simp)]

/-- If `bracketStart` finds `'{'` at `k`, the character at `k` is `'{'`;
in the fallback case the character at `k` is `'['` and the whole string is
brace-free. -/
theorem bracketStart_spec (s : GoStr) (k : Nat) (h : bracketStart s = some k) :
    ∃ hk : k < s.length,
      s[k] = '{' ∨ (s[k] = '[' ∧ ∀ c ∈ s, c ≠ '{') := by
  unfold bracketStart at h
  cases hf : s.findIdx? (fun c => c = '{') with
  | some i =>
    rw [hf] at h
    have hik : i = k := by simpa using h
    subst hik
    rw [List.findIdx?_eq_some_iff_getElem] at hf
    obtain ⟨hk, hp, _⟩ := hf
    exact ⟨hk, Or.inl (by simpa using hp)⟩
  | none =>
    rw [hf] at h
    have hnb : ∀ c ∈ s, c ≠ '{' := by
      rw [List.findIdx?_eq_none_iff] at hf
      intro c hc
      simpa using hf c hc
    rw [List.findIdx?_eq_some_iff_getElem] at h
    obtain ⟨hk, hp, _⟩ := h
    exact ⟨hk, Or.inr ⟨by simpa using hp, hnb⟩⟩

set_option maxHeartbeats 1000000 in
/-- Claim C7 (amended) — The JSON Extractor is idempotent on every input whose
output neither starts nor ends with the three-backtick fence marker; in
particular on every input from which a bracketed segment is extracted.
(Full idempotence fails: a bracket-free output can retain a fence marker
that a second application strips — see the counterexample.) -/
theorem extractJSON_idem_of_noFence (s : GoStr)
    (h1 : fenceAtStart (extractJSONFromText s) = false)
    (h2 : fenceAtEnd (extractJSONFromText s) = false) :
    extractJSONFromText (extractJSONFromText s) = extractJSONFromText s := by
  cases hb : bracketStart (strippedInput s) with
  | none =>
    have he : extractJSONFromText s = strippedInput s := by
      simp only [extractJSONFromText, hb]
    rw [he] at h1 h2 ⊢
    simp only [extractJSONFromText,
      strippedInput_eq_self _ (goTrimSpace_strippedInput s) h1 h2, hb]
  | some k =>
    cases hz : lastZeroRel ((strippedInput s).drop k) 0 with
    | none =>
      have he : extractJSONFromText s = strippedInput s := by
        simp only [extractJSONFromText, hb, lastZeroAux_zero, hz]
      rw [he] at h1 h2 ⊢
      simp only [extractJSONFromText,
        strippedInput_eq_self _ (goTrimSpace_strippedInput s) h1 h2, hb,
        lastZeroAux_zero, hz]
    | some r =>
      have he : extractJSONFromText s =
          goTrimSpace (((strippedInput s).drop k).take (r + 1)) := by
        simp only [extractJSONFromText, hb, lastZeroAux_zero, hz]
      obtain ⟨hcz, -⟩ := lastZeroRel_some ((strippedInput s).drop k) 0 r hz
      obtain ⟨hrlen, hclose, -⟩ := hcz
      obtain ⟨hklen, hkchar⟩ := bracketStart_spec (strippedInput s) k hb
      -- the character the scan starts at
      have hhead : ((strippedInput s).drop k).head? = some (strippedInput s)[k] := by
        rw [List.head?_drop]
        exact List.getElem?_eq_getElem hklen
      have hopen : isOpenBracket (strippedInput s)[k] = true := by
        rcases hkchar with h | h
        · simp [isOpenBracket, h]
        · simp [isOpenBracket, h.1]
      -- ends of the cut segment
      have hseghead : (((strippedInput s).drop k).take (r + 1)).head?
          = some (strippedInput s)[k] := by
        rw [List.head?_take, if_neg (by omega), hhead]
      have hseglast : (((strippedInput s).drop k).take (r + 1)).getLast?
          = some ((strippedInput s).drop k)[r] := by
        rw [List.getLast?_take, if_neg (by omega)]
        simp [List.getElem?_eq_getElem hrlen]
      have hclose' : isCloseBracket ((strippedInput s).drop k)[r] = true := by
        have hg : ((strippedInput s).drop k).getD r ' ' = ((strippedInput s).drop k)[r] := by
          simp [List.getElem?_eq_getElem hrlen]
        rwa [hg] at hclose
      -- trimming the segment is a no-op
      have hseg : goTrimSpace (((strippedInput s).drop k).take (r + 1))
          = ((strippedInput s).drop k).take (r + 1) := by
        apply goTrimSpace_eq_self
        · intro c hc
          rw [hseghead] at hc
          cases hc
          exact open_not_space hopen
        · intro c hc
          rw [hseglast] at hc
          cases hc
          exact close_not_space hclose'
      set o := goTrimSpace (((strippedInput s).drop k).take (r + 1)) with ho
      have hov : o = ((strippedInput s).drop k).take (r + 1) := hseg
      have holen : o.length = r + 1 := by
        rw [hov, List.length_take]
        omega
      have htrimo : goTrimSpace o = o := by
        rw [ho, goTrimSpace_idem]
      have hheado : o.head? = some (strippedInput s)[k] := by
        rw [hov]
        exact hseghead
      have hbo : bracketStart o = some 0 := by
        rcases hkchar with h | h
        · exact bracketStart_head_brace o (h ▸ hheado)
        · refine bracketStart_head_open o (strippedInput s)[k] hheado ?_ (Or.inr h.1)
          intro c hc
          apply h.2 c
          have hmem : c ∈ ((strippedInput s).drop k).take (r + 1) := hov ▸ hc
          exact ((List.take_sublist _ _).trans (List.drop_sublist _ _)).mem hmem
      have hzo : lastZeroRel o 0 = some r := by
        rw [hov]
        exact lastZeroRel_take _ 0 r hz
      have htake : o.take (r + 1) = o := List.take_of_length_le (by omega)
      rw [he] at h1 h2 ⊢
      simp only [extractJSONFromText, strippedInput_eq_self o htrimo h1 h2, hbo,
        lastZeroAux_zero, List.drop_zero, hzo, htake, htrimo]

/-- The input refuting full idempotence: the letter `x` followed by two
fence markers. -/
def nonIdemInput : GoStr := 'x' :: (fence3 ++ fence3)

/-- Claim C7 (counterexample) — The extractor is not idempotent as claimed:
on `"x\x60\x60\x60\x60\x60\x60"` one application yields `"x\x60\x60\x60"`
(only one trailing fence marker is stripped), and a second application
yields `"x"`. -/
theorem extractJSON_not_idempotent :
    extractJSONFromText (extractJSONFromText nonIdemInput) ≠
      extractJSONFromText nonIdemInput := by decide

/-- Witness for the amended C7 theorem at the concrete input `"{}"`. -/
theorem extractJSON_idem_witness :
    extractJSONFromText (extractJSONFromText ['{', '}']) =
      extractJSONFromText ['{', '}'] :=
  extractJSON_idem_of_noFence ['{', '}'] (by decide) (by decide)

/-! ### Multi-Call data model (scanner.go) -/

inductive QueryType where
  | direct
  | intermediate
  | indirect
deriving DecidableEq

/-- Type `BrandCitation` as decoded from JSON: `citations := none` models a Go
`nil` slice (a `"citations": null` or absent field). -/
structure BrandCitation where
  name : GoStr
  url : GoStr
  citations : Option (List GoStr)
deriving DecidableEq

structure QueryBrandsResult where
  query : GoStr
  brands : List BrandCitation
deriving DecidableEq

structure QueryGroup where
  queries : List QueryBrandsResult
deriving DecidableEq

/-- Field order as in the Go struct: indirect, intermediate, direct. -/
structure FinalBrandAnalysis where
  indirect : QueryGroup
  intermediate : QueryGroup
  direct : QueryGroup
deriving DecidableEq

structure BrandWorkflowConfig where
  numDirect : Int
  numIntermediate : Int
  numIndirect : Int

/-- Model of `countBrandsInGroup`: total brands across all queries in a group,
written as the Go accumulation loop. -/
def countBrandsInGroup (g : QueryGroup) : Nat :=
  g.queries.foldl (fun total q => total + q.brands.length) 0

/-- The spec's phrasing: "total count of brand entries across all queries
in that category". -/
def totalBrandEntries (g : QueryGroup) : Nat :=
  (g.queries.map (fun q => q.brands.length)).sum

/-- Model of `collectAllQueries`: deduplication of trimmed query texts across the
three groups, skipping blank queries.  The Go function accumulates into a
map and then iterates it in unspecified order; the embedding fixes
first-insertion order (the element set is the same). -/
def collectAllQueries (analysis : FinalBrandAnalysis) : List GoStr :=
  let add := fun (acc : List GoStr) (qs : List QueryBrandsResult) =>
    qs.foldl (fun acc q =>
      let t := goTrimSpace q.query
      if t = [] then acc
      else if t ∈ acc then acc else acc ++ [t]) acc
  add (add (add [] analysis.direct.queries) analysis.intermediate.queries)
    analysis.indirect.queries

/-- The constant `maxBrandsPerQuery = 10.0` in `BrandWorkflowHandler`. -/
def maxBrandsPerQuery : ℚ := 10

/-- The score computation of `BrandWorkflowHandler` (Strategy A): for each
category, `max := 10 * cfg.N`, floored to 1 when it equals 0, then
`score = count / max * 100`; the visibility score is the fixed weighted
combination.  Returns (direct, intermediate, indirect, visibility). -/
def handlerScores (cfg : BrandWorkflowConfig) (analysis : FinalBrandAnalysis) :
    ℚ × ℚ × ℚ × ℚ :=
  let directBrands := countBrandsInGroup analysis.direct
  let interBrands := countBrandsInGroup analysis.intermediate
  let indirectBrands := countBrandsInGroup analysis.indirect
  let maxDirect0 : ℚ := maxBrandsPerQuery * (cfg.numDirect : ℚ)
  let maxDirect := if maxDirect0 = 0 then 1 else maxDirect0
  let maxIntermediate0 : ℚ := maxBrandsPerQuery * (cfg.numIntermediate : ℚ)
  let maxIntermediate := if maxIntermediate0 = 0 then 1 else maxIntermediate0
  let maxIndirect0 : ℚ := maxBrandsPerQuery * (cfg.numIndirect : ℚ)
  let maxIndirect := if maxIndirect0 = 0 then 1 else maxIndirect0
  let directScore := ((directBrands : ℚ) / maxDirect) * 100
  let intermediateScore := ((interBrands : ℚ) / maxIntermediate) * 100
  let indirectScore := ((indirectBrands : ℚ) / maxIndirect) * 100
  let visibilityScore := 0.5 * directScore + 0.3 * intermediateScore + 0.2 * indirectScore
  (directScore, intermediateScore, indirectScore, visibilityScore)

/-- The spec's category-score formula (Strategy A): count over `10 × n`
(denominator floored to 1 when it would otherwise be 0), times 100. -/
def specCategoryScore (total : Nat) (n : Int) : ℚ :=
  100 * (total : ℚ) / (if (10 : ℚ) * (n : ℚ) = 0 then 1 else 10 * (n : ℚ))

/-- The shared visibility weighting `0.5·direct + 0.3·intermediate +
0.2·indirect`. -/
def visibilityFormula (d i n : ℚ) : ℚ := 0.5 * d + 0.3 * i + 0.2 * n

/-! ### Multi-Call operations with the external calls as oracles -/

/-- Model of `GenerateQueriesForType` around its generative call: `n ≤ 0` returns an
empty list without calling; otherwise the call text runs through the JSON
Extractor and the decoded array (`decodeArr` models `json.Unmarshal` into
`[]string`) is truncated to the first `n` items when over-produced.
`callsMade` counts the generative calls issued. -/
structure GenQueriesOutcome where
  result : Except GoStr (List GoStr)
  callsMade : Nat

def GenerateQueriesForType (n : Int) (call : Except GoStr GoStr)
    (decodeArr : GoStr → Option (List GoStr)) : GenQueriesOutcome :=
  if n ≤ 0 then ⟨.ok [], 0⟩
  else
    match call with
    | .error e => ⟨.error e, 1⟩
    | .ok text =>
      match decodeArr (extractJSONFromText text) with
      | none => ⟨.error text, 1⟩
      | some queries =>
        ⟨.ok (if (queries.length : Int) > n then queries.take n.toNat else queries), 1⟩

/-- Model of `ExtractBrandsFromResearchText` around its generative call: the call
text runs through the JSON Extractor, `decodeBrands` models
`json.Unmarshal` of the `{"brands": [...]}` payload, and decoded brands
with a `nil` citations list get an empty list instead (the `for i :=
range parsed.Brands` loop). -/
def normalizeBrandCitations (bs : List BrandCitation) : List BrandCitation :=
  bs.map (fun b =>
    match b.citations with
    | none => { b with citations := some [] }
    | some _ => b)

def ExtractBrandsFromResearchText (call : Except GoStr GoStr)
    (decodeBrands : GoStr → Option (List BrandCitation)) :
    Except GoStr (List BrandCitation) :=
  match call with
  | .error e => .error e
  | .ok text =>
    match decodeBrands (extractJSONFromText text) with
    | none => .error text
    | some parsed => .ok (normalizeBrandCitations parsed)

/-- Model of `ProcessSingleQuery`: web-search research then brand extraction, each
an oracle; the first failure propagates. -/
def ProcessSingleQuery (research : GoStr → Except GoStr GoStr)
    (extractBrands : GoStr → GoStr → Except GoStr (List BrandCitation))
    (q : GoStr) : Except GoStr QueryBrandsResult :=
  match research q with
  | .error e => .error e
  | .ok researchText =>
    match extractBrands q researchText with
    | .error e => .error e
    | .ok brands => .ok ⟨q, brands⟩

/-- Model of `ProcessQueriesForType`: queries are processed one at a time in order;
blank queries are skipped; the first failure aborts the whole batch with
an error and no results. -/
def ProcessQueriesForType
    (proc : GoStr → Except GoStr QueryBrandsResult) :
    List GoStr → Except GoStr (List QueryBrandsResult)
  | [] => .ok []
  | q :: rest =>
    if goTrimSpace q = [] then ProcessQueriesForType proc rest
    else
      match proc q with
      | .error e => .error e
      | .ok r =>
        match ProcessQueriesForType proc rest with
        | .error e => .error e
        | .ok rs => .ok (r :: rs)

/-- Model of `RunFullBrandWorkflow`: generate queries per category, then process
each category batch; any failure aborts the run.  `genQ` is the query
generation stage keyed by category, `proc` the per-query
research-and-extraction stage. -/
def RunFullBrandWorkflow (genQ : QueryType → Except GoStr (List GoStr))
    (proc : GoStr → Except GoStr QueryBrandsResult) :
    Except GoStr FinalBrandAnalysis :=
  match genQ .direct with
  | .error e => .error e
  | .ok directQueries =>
    match genQ .intermediate with
    | .error e => .error e
    | .ok intermediateQueries =>
      match genQ .indirect with
      | .error e => .error e
      | .ok indirectQueries =>
        match ProcessQueriesForType proc directQueries with
        | .error e => .error e
        | .ok directResults =>
          match ProcessQueriesForType proc intermediateQueries with
          | .error e => .error e
          | .ok intermediateResults =>
            match ProcessQueriesForType proc indirectQueries with
            | .error e => .error e
            | .ok indirectResults =>
              .ok ⟨⟨indirectResults⟩, ⟨intermediateResults⟩, ⟨directResults⟩⟩

/-- Model of `GenerateSuggestionsForSite` after a successful decode: each
suggestion is trimmed and blank entries are dropped.  (The limit of 10 in
the prompt text is a request to the model only: the Go code applies no
numeric cap on this path.) -/
def normalizeSuggestions (parsed : List GoStr) : List GoStr :=
  parsed.foldl (fun out s =>
    if goTrimSpace s ≠ [] then out ++ [goTrimSpace s] else out) []

def GenerateSuggestionsForSite (call : Except GoStr GoStr)
    (decodeSuggestions : GoStr → Option (List GoStr)) :
    Except GoStr (List GoStr) :=
  match call with
  | .error e => .error e
  | .ok text =>
    match decodeSuggestions (extractJSONFromText text) with
    | none => .error text
    | some parsed => .ok (normalizeSuggestions parsed)

/-! ### The Multi-Call handler around the workflow -/

/-- The handler's response as seen by the caller: HTTP status, message,
and the payload fields that are attached (if any). -/
structure HandlerResponse where
  status : Nat
  message : GoStr
  analysis : Option FinalBrandAnalysis
  suggestions : Option (List GoStr)
  queries : Option (List GoStr)

structure HandlerOutcome where
  response : HandlerResponse
  persisted : Bool
  writeAttempted : Bool

/-- Model of `BrandWorkflowHandler` after auth, request parsing and site lookup:
run the workflow, generate suggestions, then attempt the single
persistence write.  A workflow or suggestion failure responds 502 with no
payload and never reaches the write; a failed write responds 500 but still
carries the computed analysis, suggestions and deduplicated queries; a
successful write responds 200 with the same payload.  (`json.Marshal` of
the analysis, which cannot fail on these types, is not modelled.) -/
def BrandWorkflowHandler
    (workflow : Except GoStr FinalBrandAnalysis)
    (suggest : FinalBrandAnalysis → Except GoStr (List GoStr))
    (persist : Except GoStr Unit) : HandlerOutcome :=
  match workflow with
  | .error e => ⟨⟨502, e, none, none, none⟩, false, false⟩
  | .ok analysis =>
    let allQueries := collectAllQueries analysis
    match suggest analysis with
    | .error e => ⟨⟨502, e, none, none, none⟩, false, false⟩
    | .ok suggestions =>
      match persist with
      | .error e => ⟨⟨500, e, some analysis, some suggestions, some allQueries⟩, false, true⟩
      | .ok _ => ⟨⟨200, [], some analysis, some suggestions, some allQueries⟩, true, true⟩

/-! ### Single-Call data model and normalization (scanmanager.go) -/

structure RankedHit where
  rank : Int
  title : GoStr
  url : GoStr
  domain : GoStr
  snippet : GoStr
  isMention : Bool
  mentionReason : Option GoStr

/-- One per-query block of the Single-Call result; `typ` is the Go `Type`
field ("direct" / "intermediate" / "indirect"). -/
structure PerQueryResult where
  typ : GoStr
  query : GoStr
  results : List RankedHit

structure SEOScores where
  directQueryScore : ℚ
  intermediateContextQueryScore : ℚ
  indirectQueryScore : ℚ
  visibilityScore : ℚ
deriving DecidableEq

/-- The decoded Single-Call payload.  List-valued fields that
`normalizeResult` nil-checks are `Option`s: `none` models a Go `nil`
slice; `perQueryResults` is only length-checked in Go, so a plain list
suffices (`nil` and empty behave identically there). -/
structure SEOAnalysisResult where
  siteName : GoStr
  siteURL : GoStr
  siteDescription : GoStr
  siteLanguage : GoStr
  queriesDirect : Option (List GoStr)
  queriesIntermediate : Option (List GoStr)
  queriesIndirect : Option (List GoStr)
  perQueryResults : List PerQueryResult
  scores : SEOScores
  citations : Option (List GoStr)
  keywordsFromTheQueries : Option (List GoStr)
  allOfTheQueriesUsed : Option (List GoStr)
  suggestions : Option (List GoStr)

/-- Model of `rankWeights`: the fixed per-rank weight map; absent ranks yield no
weight (the `ok` check in Go). -/
def rankWeights (r : Int) : Option ℚ :=
  if r = 1 then some 1.0
  else if r = 2 then some 0.8
  else if r = 3 then some 0.6
  else if r = 4 then some 0.4
  else if r = 5 then some 0.2
  else none

/-- The weighted mention sum of one per-query block: ranks of hits flagged
as mentions, looked up in `rankWeights`. -/
def queryWeighted (pq : PerQueryResult) : ℚ :=
  pq.results.foldl (fun w re =>
    if re.isMention then
      match rankWeights re.rank with
      | some w' => w + w'
      | none => w
    else w) 0

/-- The accumulation loop of the recompute branch: per-category weighted
sums and block counts, matched on the `typ` string; unknown types are
ignored (no `default` case in the Go `switch`). -/
def sumsByType (l : List PerQueryResult) : (ℚ × Nat) × (ℚ × Nat) × (ℚ × Nat) :=
  l.foldl (fun acc pq =>
    let w := queryWeighted pq
    if pq.typ = "direct".toList then
      ((acc.1.1 + w, acc.1.2 + 1), acc.2.1, acc.2.2)
    else if pq.typ = "intermediate".toList then
      (acc.1, (acc.2.1.1 + w, acc.2.1.2 + 1), acc.2.2)
    else if pq.typ = "indirect".toList then
      (acc.1, acc.2.1, (acc.2.2.1 + w, acc.2.2.2 + 1))
    else acc) ((0, 0), (0, 0), (0, 0))

/-- Block 1 of `normalizeResult`: materialize nil slices as empty. -/
def materializeNilSlices (r : SEOAnalysisResult) : SEOAnalysisResult :=
  { r with
    queriesDirect := some (r.queriesDirect.getD []),
    queriesIntermediate := some (r.queriesIntermediate.getD []),
    queriesIndirect := some (r.queriesIndirect.getD []),
    citations := some (r.citations.getD []),
    keywordsFromTheQueries := some (r.keywordsFromTheQueries.getD []),
    allOfTheQueriesUsed := some (r.allOfTheQueriesUsed.getD []),
    suggestions := some (r.suggestions.getD []) }

/-- Block 2 of `normalizeResult`: keep at most one query per category. -/
def clampQueriesPerType (r : SEOAnalysisResult) : SEOAnalysisResult :=
  let clamp1 := fun (q : Option (List GoStr)) =>
    q.map (fun l => if l.length > 1 then l.take 1 else l)
  { r with
    queriesDirect := clamp1 r.queriesDirect,
    queriesIntermediate := clamp1 r.queriesIntermediate,
    queriesIndirect := clamp1 r.queriesIndirect }

/-- Block 3 of `normalizeResult`: derive `allOfTheQueriesUsed` when empty. -/
def deriveAllQueries (r : SEOAnalysisResult) : SEOAnalysisResult :=
  if (r.allOfTheQueriesUsed.getD []).length = 0 then
    { r with allOfTheQueriesUsed := some ((r.queriesDirect.getD [])
        ++ (r.queriesIntermediate.getD []) ++ (r.queriesIndirect.getD [])) }
  else r

/-- The scores set by the recompute branch: per-category weighted sums
over block counts (floored to 1), times 100, and the weighted visibility
combination. -/
def recomputedScores (l : List PerQueryResult) : SEOScores :=
  let acc := sumsByType l
  let dSum := acc.1.1
  let dCnt := if acc.1.2 = 0 then 1 else acc.1.2
  let iSum := acc.2.1.1
  let iCnt := if acc.2.1.2 = 0 then 1 else acc.2.1.2
  let nSum := acc.2.2.1
  let nCnt := if acc.2.2.2 = 0 then 1 else acc.2.2.2
  let dScore := (dSum / (dCnt : ℚ)) * 100
  let iScore := (iSum / (iCnt : ℚ)) * 100
  let nScore := (nSum / (nCnt : ℚ)) * 100
  let vis := 0.5 * dScore + 0.3 * iScore + 0.2 * nScore
  ⟨dScore, iScore, nScore, vis⟩

/-- Block 4 of `normalizeResult`: recompute all four scores from
`perQueryResults` only when the block list is non-empty and all three
service-provided category scores are exactly zero. -/
def recomputeScoresIfZero (r : SEOAnalysisResult) : SEOAnalysisResult :=
  if 0 < r.perQueryResults.length ∧
      r.scores.directQueryScore = 0 ∧
      r.scores.intermediateContextQueryScore = 0 ∧
      r.scores.indirectQueryScore = 0 then
    { r with scores := recomputedScores r.perQueryResults }
  else r

/-- Block 5 of `normalizeResult`: trim citation whitespace. -/
def trimCitations (r : SEOAnalysisResult) : SEOAnalysisResult :=
  { r with citations := r.citations.map (fun cs => cs.map goTrimSpace) }

/-- Full `normalizeResult`, its five statement blocks in source order. -/
def normalizeResult (r : SEOAnalysisResult) : SEOAnalysisResult :=
  trimCitations (recomputeScoresIfZero (deriveAllQueries
    (clampQueriesPerType (materializeNilSlices r))))

/-- Caps of `clampResult`, one per field: 15 keywords, 8 suggestions, 10
citations, 3 queries in `allOfTheQueriesUsed`. -/
def clampKeywords (r : SEOAnalysisResult) : SEOAnalysisResult :=
  if (r.keywordsFromTheQueries.getD []).length > 15 then
    { r with keywordsFromTheQueries := r.keywordsFromTheQueries.map (fun l => l.take 15) }
  else r

def clampSuggestions (r : SEOAnalysisResult) : SEOAnalysisResult :=
  if (r.suggestions.getD []).length > 8 then
    { r with suggestions := r.suggestions.map (fun l => l.take 8) }
  else r

def clampCitations (r : SEOAnalysisResult) : SEOAnalysisResult :=
  if (r.citations.getD []).length > 10 then
    { r with citations := r.citations.map (fun l => l.take 10) }
  else r

def clampQueriesUsed (r : SEOAnalysisResult) : SEOAnalysisResult :=
  if (r.allOfTheQueriesUsed.getD []).length > 3 then
    { r with allOfTheQueriesUsed := r.allOfTheQueriesUsed.map (fun l => l.take 3) }
  else r

/-- Full `clampResult`: the four hard caps in source order. -/
def clampResult (r : SEOAnalysisResult) : SEOAnalysisResult :=
  clampQueriesUsed (clampCitations (clampSuggestions (clampKeywords r)))

/-- The Single-Call handler `AnalyzeAndCreateScan` around its external
call and persistence write: a call failure responds 502 with no result; a
failed scan save responds 500 but still carries the computed result; a
successful save responds 200 with the result. -/
structure SingleOutcome where
  status : Nat
  result : Option SEOAnalysisResult
  persisted : Bool

def AnalyzeAndCreateScan (callResult : Except GoStr SEOAnalysisResult)
    (persist : Except GoStr Unit) : SingleOutcome :=
  match callResult with
  | .error _ => ⟨502, none, false⟩
  | .ok result =>
    match persist with
    | .error _ => ⟨500, some result, false⟩
    | .ok _ => ⟨200, some result, true⟩

/-! ### Scoring theorems -/

theorem foldl_add_lengths (l : List QueryBrandsResult) :
    ∀ (a : Nat), l.foldl (fun total q => total + q.brands.length) a
      = a + (l.map (fun q => q.brands.length)).sum := by
  induction l with
  | nil => intro a; simp
  | cons q t ih => intro a; simp [ih, Nat.add_assoc]

theorem countBrandsInGroup_eq_total (g : QueryGroup) :
    countBrandsInGroup g = totalBrandEntries g := by
  unfold countBrandsInGroup totalBrandEntries
  simpa using foldl_add_lengths g.queries 0

/-- Claim C3 — The Multi-Call handler computes each category score as the
total brand-entry count across the category's queries, divided by `10 ×`
the configured query count (denominator floored to 1 when it would
otherwise be 0), times 100. -/
theorem handlerScores_match_specFormula (cfg : BrandWorkflowConfig)
    (a : FinalBrandAnalysis) :
    (handlerScores cfg a).1 = specCategoryScore (totalBrandEntries a.direct) cfg.numDirect ∧
    (handlerScores cfg a).2.1
      = specCategoryScore (totalBrandEntries a.intermediate) cfg.numIntermediate ∧
    (handlerScores cfg a).2.2.1
      = specCategoryScore (totalBrandEntries a.indirect) cfg.numIndirect := by
  unfold handlerScores specCategoryScore maxBrandsPerQuery
  rw [countBrandsInGroup_eq_total, countBrandsInGroup_eq_total,
    countBrandsInGroup_eq_total]
  refine ⟨?_, ?_, ?_⟩ <;> ring

theorem recomputeScoresIfZero_scores (r : SEOAnalysisResult) :
    (recomputeScoresIfZero r).scores =
      (if 0 < r.perQueryResults.length ∧ r.scores.directQueryScore = 0 ∧
          r.scores.intermediateContextQueryScore = 0 ∧
          r.scores.indirectQueryScore = 0 then
        recomputedScores r.perQueryResults
      else r.scores) := by
  unfold recomputeScoresIfZero
  split <;> rfl

theorem materializeNilSlices_scores (r : SEOAnalysisResult) :
    (materializeNilSlices r).scores = r.scores := rfl

theorem materializeNilSlices_perQueryResults (r : SEOAnalysisResult) :
    (materializeNilSlices r).perQueryResults = r.perQueryResults := rfl

theorem clampQueriesPerType_scores (r : SEOAnalysisResult) :
    (clampQueriesPerType r).scores = r.scores := rfl

theorem clampQueriesPerType_perQueryResults (r : SEOAnalysisResult) :
    (clampQueriesPerType r).perQueryResults = r.perQueryResults := rfl

theorem deriveAllQueries_scores (r : SEOAnalysisResult) :
    (deriveAllQueries r).scores = r.scores := by
  unfold deriveAllQueries
  split <;> rfl

theorem deriveAllQueries_perQueryResults (r : SEOAnalysisResult) :
    (deriveAllQueries r).perQueryResults = r.perQueryResults := by
  unfold deriveAllQueries
  split <;> rfl

theorem trimCitations_scores (r : SEOAnalysisResult) :
    (trimCitations r).scores = r.scores := rfl

/-- The scores of a normalized result: recomputed exactly when the
per-query block list is non-empty and all three service scores are zero,
untouched otherwise. -/
theorem normalizeResult_scores (r : SEOAnalysisResult) :
    (normalizeResult r).scores =
      (if 0 < r.perQueryResults.length ∧ r.scores.directQueryScore = 0 ∧
          r.scores.intermediateContextQueryScore = 0 ∧
          r.scores.indirectQueryScore = 0 then
        recomputedScores r.perQueryResults
      else r.scores) := by
  unfold normalizeResult
  rw [trimCitations_scores, recomputeScoresIfZero_scores,
    deriveAllQueries_scores, clampQueriesPerType_scores, materializeNilSlices_scores,
    deriveAllQueries_perQueryResults, clampQueriesPerType_perQueryResults,
    materializeNilSlices_perQueryResults]

/-- Claim C6 — The Single-Call normalization recomputes scores only when the
service-provided direct, intermediate and indirect scores are all exactly
zero: whenever any of the three is nonzero, the service-provided scores
are left unchanged. -/
theorem normalizeResult_keeps_nonzero_scores (r : SEOAnalysisResult)
    (h : ¬(r.scores.directQueryScore = 0 ∧
        r.scores.intermediateContextQueryScore = 0 ∧
        r.scores.indirectQueryScore = 0)) :
    (normalizeResult r).scores = r.scores := by
  rw [normalizeResult_scores, if_neg]
  intro hc
  exact h ⟨hc.2.1, hc.2.2.1, hc.2.2.2⟩

/-- Witness for C6: a result whose direct score is 7 keeps all its scores
through normalization. -/
theorem normalizeResult_keeps_nonzero_scores_witness :
    (normalizeResult ⟨[], [], [], [], none, none, none, [], ⟨7, 0, 0, 0⟩,
        none, none, none, none⟩).scores = ⟨7, 0, 0, 0⟩ :=
  normalizeResult_keeps_nonzero_scores _ (by intro hc; exact absurd hc.1 (by decide))

/-- Claim C4 — Both strategies compute VisibilityScore as
`0.5·direct + 0.3·intermediate + 0.2·indirect`; that combination lies in
`[0,100]` whenever the three category scores do, and is 0 at (0,0,0). -/
theorem visibility_weighted_and_bounded :
    (∀ cfg a, (handlerScores cfg a).2.2.2 =
        visibilityFormula (handlerScores cfg a).1 (handlerScores cfg a).2.1
          (handlerScores cfg a).2.2.1) ∧
    (∀ r : SEOAnalysisResult, 0 < r.perQueryResults.length →
        r.scores.directQueryScore = 0 →
        r.scores.intermediateContextQueryScore = 0 →
        r.scores.indirectQueryScore = 0 →
        (normalizeResult r).scores.visibilityScore =
          visibilityFormula (normalizeResult r).scores.directQueryScore
            (normalizeResult r).scores.intermediateContextQueryScore
            (normalizeResult r).scores.indirectQueryScore) ∧
    (∀ d i n : ℚ, 0 ≤ d → d ≤ 100 → 0 ≤ i → i ≤ 100 → 0 ≤ n → n ≤ 100 →
        0 ≤ visibilityFormula d i n ∧ visibilityFormula d i n ≤ 100) ∧
    visibilityFormula 0 0 0 = 0 := by
  refine ⟨?_, ?_, ?_, ?_⟩
  · intro cfg a
    rfl
  · intro r hlen hd hi hn
    rw [normalizeResult_scores, if_pos ⟨hlen, hd, hi, hn⟩]
    rfl
  · intro d i n h1 h2 h3 h4 h5 h6
    unfold visibilityFormula
    constructor <;> nlinarith
  · norm_num [visibilityFormula]

/-- Witness for C4 at a concrete result (one empty direct block, all
scores zero) and concrete category scores (0, 100, 100). -/
theorem visibility_weighted_and_bounded_witness :
    ((normalizeResult ⟨[], [], [], [], none, none, none,
        [⟨"direct".toList, [], []⟩], ⟨0, 0, 0, 0⟩,
        none, none, none, none⟩).scores.visibilityScore =
      visibilityFormula
        (normalizeResult ⟨[], [], [], [], none, none, none,
          [⟨"direct".toList, [], []⟩], ⟨0, 0, 0, 0⟩,
          none, none, none, none⟩).scores.directQueryScore
        (normalizeResult ⟨[], [], [], [], none, none, none,
          [⟨"direct".toList, [], []⟩], ⟨0, 0, 0, 0⟩,
          none, none, none, none⟩).scores.intermediateContextQueryScore
        (normalizeResult ⟨[], [], [], [], none, none, none,
          [⟨"direct".toList, [], []⟩], ⟨0, 0, 0, 0⟩,
          none, none, none, none⟩).scores.indirectQueryScore) ∧
    (0 ≤ visibilityFormula 0 100 100 ∧ visibilityFormula 0 100 100 ≤ 100) :=
  ⟨visibility_weighted_and_bounded.2.1 _ (by decide) rfl rfl rfl,
   visibility_weighted_and_bounded.2.2.1 0 100 100 (by decide) (by decide)
     (by decide) (by decide) (by decide) (by decide)⟩

/-! ### Suggestion, query-generation and brand-extraction theorems -/

theorem normalizeSuggestions_foldl (l : List GoStr) :
    ∀ (out : List GoStr),
      l.foldl (fun out s =>
        if goTrimSpace s ≠ [] then out ++ [goTrimSpace s] else out) out
      = out ++ (l.map goTrimSpace).filter (fun s => s ≠ []) := by
  induction l with
  | nil => intro out; simp
  | cons x t ih =>
    intro out
    rw [List.foldl_cons, List.map_cons]
    by_cases hx : goTrimSpace x = []
    · rw [List.filter_cons_of_neg (by simp [hx])]
      rw [if_neg (not_not_intro hx)]
      exact ih out
    · rw [List.filter_cons_of_pos (by simpa using hx)]
      rw [if_pos hx, ih]
      simp [List.append_assoc]

/-- Claim C5 (amended) — On every successful decode the Suggestion Generator
trims each suggestion and drops blank entries; the Single-Call path caps
suggestions at 8 (`clampResult`), while the Multi-Call path applies no
numeric cap (its limit of 10 exists only in the prompt text). -/
theorem suggestions_trim_and_caps :
    (∀ (text : GoStr) (dec : GoStr → Option (List GoStr)) (parsed : List GoStr),
        dec (extractJSONFromText text) = some parsed →
        GenerateSuggestionsForSite (.ok text) dec = .ok (normalizeSuggestions parsed)) ∧
    (∀ parsed : List GoStr,
        normalizeSuggestions parsed
          = (parsed.map goTrimSpace).filter (fun s => s ≠ [])) ∧
    (∀ r : SEOAnalysisResult, ((clampResult r).suggestions.getD []).length ≤ 8) := by
  refine ⟨?_, ?_, ?_⟩
  · intro text dec parsed h
    simp only [GenerateSuggestionsForSite, h]
  · intro parsed
    unfold normalizeSuggestions
    simpa using normalizeSuggestions_foldl parsed []
  · intro r
    unfold clampResult
    have hsugg : ∀ x : SEOAnalysisResult, ((clampSuggestions x).suggestions.getD []).length ≤ 8 := by
      intro x
      unfold clampSuggestions
      split
      · cases hx : x.suggestions with
        | none => simp [hx]
        | some l => simp [hx]
      · next hc =>
        omega
    have hcit : ∀ x : SEOAnalysisResult, (clampCitations x).suggestions = x.suggestions := by
      intro x
      unfold clampCitations
      split <;> rfl
    have hqu : ∀ x : SEOAnalysisResult, (clampQueriesUsed x).suggestions = x.suggestions := by
      intro x
      unfold clampQueriesUsed
      split <;> rfl
    rw [hqu, hcit]
    exact hsugg _

/-- Witness for the amended C5 at a concrete decode of two suggestions
with surrounding blanks. -/
theorem suggestions_trim_and_caps_witness :
    GenerateSuggestionsForSite (.ok ['{', '}'])
        (fun _ => some [[' ', 'a', ' '], [' '], ['b']])
      = .ok (normalizeSuggestions [[' ', 'a', ' '], [' '], ['b']]) :=
  suggestions_trim_and_caps.1 ['{', '}'] (fun _ => some [[' ', 'a', ' '], [' '], ['b']])
    [[' ', 'a', ' '], [' '], ['b']] rfl

/-- Claim C5 (counterexample) — The Multi-Call Suggestion Generator applies
no cap of 10: a successful decode of eleven non-blank suggestions is
returned in full (length 11 > 10). -/
theorem suggestions_multiCall_uncapped :
    GenerateSuggestionsForSite (.ok ['{', '}'])
        (fun _ => some (List.replicate 11 ['a']))
      = .ok (List.replicate 11 ['a'])
    ∧ 10 < (List.replicate 11 (['a'] : GoStr)).length := by
  constructor
  · rfl
  · decide

/-- Claim C8 — The Query Generator returns an empty list without issuing a
call when `n ≤ 0`; on a successful call-and-decode with `n > 0`, the
result is the decoded list truncated to its first `n` items (so its
length is at most `n`), and under-production is returned as-is. -/
theorem genQueries_shortCircuit_and_cap :
    (∀ (n : Int) (call : Except GoStr GoStr) (dec : GoStr → Option (List GoStr)),
        n ≤ 0 → GenerateQueriesForType n call dec = ⟨.ok [], 0⟩) ∧
    (∀ (n : Int) (call : Except GoStr GoStr) (dec : GoStr → Option (List GoStr))
        (out : List GoStr),
        0 < n → (GenerateQueriesForType n call dec).result = .ok out →
        ∃ text parsed, call = .ok text ∧
          dec (extractJSONFromText text) = some parsed ∧
          (out.length : Int) ≤ n ∧
          (∃ rest, out ++ rest = parsed) ∧
          ((parsed.length : Int) ≤ n → out = parsed)) := by
  constructor
  · intro n call dec hn
    unfold GenerateQueriesForType
    rw [if_pos hn]
  · intro n call dec out hn hout
    unfold GenerateQueriesForType at hout
    rw [if_neg (by omega)] at hout
    cases call with
    | error e => dsimp only at hout; exact absurd hout (by simp)
    | ok text =>
      dsimp only at hout
      cases hdec : dec (extractJSONFromText text) with
      | none =>
        rw [hdec] at hout
        dsimp only at hout
        exact absurd hout (by simp)
      | some parsed =>
        rw [hdec] at hout
        dsimp only at hout
        simp only [Except.ok.injEq] at hout
        refine ⟨text, parsed, rfl, hdec, ?_, ?_, ?_⟩
        · rw [← hout]
          split
          · rw [List.length_take]
            omega
          · omega
        · rw [← hout]
          split
          · exact ⟨parsed.drop n.toNat, List.take_append_drop _ _⟩
          · exact ⟨[], List.append_nil _⟩
        · intro hle
          rw [← hout, if_neg (by omega)]

/-- Witness for C8: `n = 0` short-circuits, and `n = 2` truncates a decode
of three queries. -/
theorem genQueries_shortCircuit_and_cap_witness :
    GenerateQueriesForType 0 (.ok ['[', ']']) (fun _ => some []) = ⟨.ok [], 0⟩ ∧
    ∃ text parsed,
      (Except.ok ['[', ']'] : Except GoStr GoStr) = .ok text ∧
      (fun _ => some [['a'], ['b'], ['c']] : GoStr → Option (List GoStr))
          (extractJSONFromText text) = some parsed ∧
      (([['a'], ['b']] : List GoStr).length : Int) ≤ 2 ∧
      (∃ rest, [['a'], ['b']] ++ rest = parsed) ∧
      ((parsed.length : Int) ≤ 2 → [['a'], ['b']] = parsed) :=
  ⟨genQueries_shortCircuit_and_cap.1 0 (.ok ['[', ']']) (fun _ => some []) (by decide),
   genQueries_shortCircuit_and_cap.2 2 (.ok ['[', ']'])
     (fun _ => some [['a'], ['b'], ['c']]) [['a'], ['b']] (by decide) rfl⟩

/-- Claim C9 — Every brand in the list returned by a successful brand
extraction has a materialized (non-`nil`) citations list: decoded `nil`
citation lists are normalized to empty. -/
theorem extractBrands_citations_never_nil (call : Except GoStr GoStr)
    (dec : GoStr → Option (List BrandCitation)) (bs : List BrandCitation)
    (h : ExtractBrandsFromResearchText call dec = .ok bs) :
    ∀ b ∈ bs, b.citations ≠ none := by
  unfold ExtractBrandsFromResearchText at h
  cases call with
  | error e => dsimp only at h; exact absurd h (by simp)
  | ok text =>
    dsimp only at h
    cases hdec : dec (extractJSONFromText text) with
    | none =>
      rw [hdec] at h
      dsimp only at h
      exact absurd h (by simp)
    | some parsed =>
      rw [hdec] at h
      dsimp only at h
      simp only [Except.ok.injEq] at h
      subst h
      intro b hb
      unfold normalizeBrandCitations at hb
      rw [List.mem_map] at hb
      obtain ⟨b0, _, hb0⟩ := hb
      cases hc : b0.citations with
      | none => rw [hc] at hb0; rw [← hb0]; simp
      | some cs => rw [hc] at hb0; rw [← hb0]; simp [hc]

/-- Witness for C9: a decode containing a brand with `citations: null`
comes back with its citations materialized as the empty list. -/
theorem extractBrands_citations_never_nil_witness :
    (⟨['a'], [], some []⟩ : BrandCitation).citations ≠ none :=
  extractBrands_citations_never_nil (.ok ['{', '}'])
    (fun _ => some [⟨['a'], [], none⟩, ⟨['b'], [], some [['u']]⟩]) _ rfl
    ⟨['a'], [], some []⟩ (by decide)

/-! ### Workflow abort and persistence theorems -/

theorem processQueries_error_of_mem
    (proc : GoStr → Except GoStr QueryBrandsResult) (queries : List GoStr)
    (q : GoStr) (e : GoStr) (hmem : q ∈ queries) (hnb : goTrimSpace q ≠ [])
    (hq : proc q = .error e) :
    ∃ e2, ProcessQueriesForType proc queries = .error e2 := by
  induction queries with
  | nil => cases hmem
  | cons x rest ih =>
    rcases List.mem_cons.mp hmem with rfl | hmem'
    · rw [ProcessQueriesForType, if_neg hnb, hq]
      exact ⟨e, rfl⟩
    · by_cases hx : goTrimSpace x = []
      · rw [ProcessQueriesForType, if_pos hx]
        exact ih hmem'
      · rw [ProcessQueriesForType, if_neg hx]
        cases hpx : proc x with
        | error e1 => exact ⟨e1, rfl⟩
        | ok r =>
          obtain ⟨e2, he2⟩ := ih hmem'
          rw [he2]
          exact ⟨e2, rfl⟩

theorem runWorkflow_ok_inv (genQ : QueryType → Except GoStr (List GoStr))
    (proc : GoStr → Except GoStr QueryBrandsResult) (f : FinalBrandAnalysis)
    (h : RunFullBrandWorkflow genQ proc = .ok f) :
    ∃ dq iq nq dr ir nr,
      genQ .direct = .ok dq ∧ genQ .intermediate = .ok iq ∧ genQ .indirect = .ok nq ∧
      ProcessQueriesForType proc dq = .ok dr ∧
      ProcessQueriesForType proc iq = .ok ir ∧
      ProcessQueriesForType proc nq = .ok nr ∧
      f = ⟨⟨nr⟩, ⟨ir⟩, ⟨dr⟩⟩ := by
  unfold RunFullBrandWorkflow at h
  cases h1 : genQ .direct with
  | error e => rw [h1] at h; exact absurd h (by simp)
  | ok dq =>
  rw [h1] at h
  dsimp only at h
  cases h2 : genQ .intermediate with
  | error e => rw [h2] at h; exact absurd h (by simp)
  | ok iq =>
  rw [h2] at h
  dsimp only at h
  cases h3 : genQ .indirect with
  | error e => rw [h3] at h; exact absurd h (by simp)
  | ok nq =>
  rw [h3] at h
  dsimp only at h
  cases h4 : ProcessQueriesForType proc dq with
  | error e => rw [h4] at h; exact absurd h (by simp)
  | ok dr =>
  rw [h4] at h
  dsimp only at h
  cases h5 : ProcessQueriesForType proc iq with
  | error e => rw [h5] at h; exact absurd h (by simp)
  | ok ir =>
  rw [h5] at h
  dsimp only at h
  cases h6 : ProcessQueriesForType proc nq with
  | error e => rw [h6] at h; exact absurd h (by simp)
  | ok nr =>
  rw [h6] at h
  dsimp only at h
  simp only [Except.ok.injEq] at h
  exact ⟨dq, iq, nq, dr, ir, nr, rfl, rfl, rfl, h4, h5, h6, h.symm⟩

/-- Claim C1 — A research/extraction failure on any (non-blank) query of any
category aborts that category's batch with an error and no results; it
makes the whole workflow return an error; the handler attempts the
persistence write only after the workflow and the suggestion stage both
succeeded, and a record is persisted only when additionally the write
itself succeeded. -/
theorem workflow_aborts_and_persists_only_on_success :
    (∀ (proc : GoStr → Except GoStr QueryBrandsResult) (queries : List GoStr) (q e : GoStr),
        q ∈ queries → goTrimSpace q ≠ [] → proc q = .error e →
        ∃ e2, ProcessQueriesForType proc queries = .error e2) ∧
    (∀ (genQ : QueryType → Except GoStr (List GoStr))
        (proc : GoStr → Except GoStr QueryBrandsResult)
        (t : QueryType) (qs : List GoStr) (q e : GoStr),
        genQ t = .ok qs → q ∈ qs → goTrimSpace q ≠ [] → proc q = .error e →
        ∃ e3, RunFullBrandWorkflow genQ proc = .error e3) ∧
    (∀ (workflow : Except GoStr FinalBrandAnalysis)
        (suggest : FinalBrandAnalysis → Except GoStr (List GoStr))
        (persist : Except GoStr Unit),
        (BrandWorkflowHandler workflow suggest persist).writeAttempted = true →
        ∃ analysis suggestions,
          workflow = .ok analysis ∧ suggest analysis = .ok suggestions) ∧
    (∀ (workflow : Except GoStr FinalBrandAnalysis)
        (suggest : FinalBrandAnalysis → Except GoStr (List GoStr))
        (persist : Except GoStr Unit),
        (BrandWorkflowHandler workflow suggest persist).persisted = true →
        (∃ analysis suggestions,
          workflow = .ok analysis ∧ suggest analysis = .ok suggestions)
          ∧ persist = .ok ()) := by
  refine ⟨processQueries_error_of_mem, ?_, ?_, ?_⟩
  · intro genQ proc t qs q e hgen hmem hnb hq
    cases hrun : RunFullBrandWorkflow genQ proc with
    | error e3 => exact ⟨e3, rfl⟩
    | ok f =>
      exfalso
      obtain ⟨dq, iq, nq, dr, ir, nr, h1, h2, h3, h4, h5, h6, -⟩ :=
        runWorkflow_ok_inv genQ proc f hrun
      obtain ⟨e2, he2⟩ := processQueries_error_of_mem proc qs q e hmem hnb hq
      cases t with
      | direct =>
        rw [hgen] at h1
        simp only [Except.ok.injEq] at h1
        rw [← h1, he2] at h4
        exact absurd h4 (by simp)
      | intermediate =>
        rw [hgen] at h2
        simp only [Except.ok.injEq] at h2
        rw [← h2, he2] at h5
        exact absurd h5 (by simp)
      | indirect =>
        rw [hgen] at h3
        simp only [Except.ok.injEq] at h3
        rw [← h3, he2] at h6
        exact absurd h6 (by simp)
  · intro workflow suggest persist h
    cases workflow with
    | error e => exact absurd h (by simp [BrandWorkflowHandler])
    | ok analysis =>
      cases hs : suggest analysis with
      | error e =>
        exfalso
        unfold BrandWorkflowHandler at h
        dsimp only at h
        rw [hs] at h
        dsimp only at h
        exact absurd h (by simp)
      | ok suggestions => exact ⟨analysis, suggestions, rfl, hs⟩
  · intro workflow suggest persist h
    cases workflow with
    | error e => exact absurd h (by simp [BrandWorkflowHandler])
    | ok analysis =>
      cases hs : suggest analysis with
      | error e =>
        exfalso
        unfold BrandWorkflowHandler at h
        dsimp only at h
        rw [hs] at h
        dsimp only at h
        exact absurd h (by simp)
      | ok suggestions =>
        cases persist with
        | error e =>
          exfalso
          unfold BrandWorkflowHandler at h
          dsimp only at h
          rw [hs] at h
          dsimp only at h
          exact absurd h (by simp)
        | ok u =>
          exact ⟨⟨analysis, suggestions, rfl, hs⟩, rfl⟩

/-- Witness for C1: a two-query direct batch whose second query fails
aborts the batch and the run, and no write is attempted. -/
theorem workflow_aborts_witness :
    (∃ e2, ProcessQueriesForType
        (fun q => if q = ['b'] then .error ['E'] else .ok ⟨q, []⟩)
        [['a'], ['b']] = .error e2) ∧
    (∃ e3, RunFullBrandWorkflow
        (fun _ => .ok [['a'], ['b']])
        (fun q => if q = ['b'] then .error ['E'] else .ok ⟨q, []⟩) = .error e3) :=
  ⟨workflow_aborts_and_persists_only_on_success.1
      (fun q => if q = ['b'] then .error ['E'] else .ok ⟨q, []⟩)
      [['a'], ['b']] ['b'] ['E'] (by decide) (by decide) rfl,
   workflow_aborts_and_persists_only_on_success.2.1
      (fun _ => .ok [['a'], ['b']])
      (fun q => if q = ['b'] then .error ['E'] else .ok ⟨q, []⟩)
      .direct [['a'], ['b']] ['b'] ['E'] rfl (by decide) (by decide) rfl⟩

/-- Claim C10 — A persistence failure after a fully computed analysis still
surfaces the completed work: the Multi-Call handler's 500 response carries
the analysis, the suggestions and the deduplicated query list (and the
Single-Call handler's 500 response carries the computed result). -/
theorem persistFailure_surfaces_computed_work :
    (∀ (workflow : Except GoStr FinalBrandAnalysis)
        (suggest : FinalBrandAnalysis → Except GoStr (List GoStr))
        (persist : Except GoStr Unit)
        (analysis : FinalBrandAnalysis) (suggestions : List GoStr) (e : GoStr),
        workflow = .ok analysis → suggest analysis = .ok suggestions →
        persist = .error e →
        (BrandWorkflowHandler workflow suggest persist).response.status = 500 ∧
        (BrandWorkflowHandler workflow suggest persist).response.analysis
          = some analysis ∧
        (BrandWorkflowHandler workflow suggest persist).response.suggestions
          = some suggestions ∧
        (BrandWorkflowHandler workflow suggest persist).response.queries
          = some (collectAllQueries analysis) ∧
        (BrandWorkflowHandler workflow suggest persist).persisted = false) ∧
    (∀ (callResult : Except GoStr SEOAnalysisResult) (persist : Except GoStr Unit)
        (res : SEOAnalysisResult) (e : GoStr),
        callResult = .ok res → persist = .error e →
        (AnalyzeAndCreateScan callResult persist).status = 500 ∧
        (AnalyzeAndCreateScan callResult persist).result = some res ∧
        (AnalyzeAndCreateScan callResult persist).persisted = false) := by
  constructor
  · intro workflow suggest persist analysis suggestions e hw hs hp
    subst hw
    subst hp
    unfold BrandWorkflowHandler
    dsimp only
    rw [hs]
    exact ⟨rfl, rfl, rfl, rfl, rfl⟩
  · intro callResult persist res e hc hp
    subst hc
    subst hp
    exact ⟨rfl, rfl, rfl⟩

/-- Witness for C10 at a concrete analysis with two duplicate queries and
one suggestion. -/
theorem persistFailure_surfaces_computed_work_witness :
    (BrandWorkflowHandler
        (.ok ⟨⟨[]⟩, ⟨[]⟩, ⟨[⟨[' ', 'q'], []⟩, ⟨['q'], []⟩]⟩⟩)
        (fun _ => .ok [['s']]) (.error ['D'])).response.analysis
      = some ⟨⟨[]⟩, ⟨[]⟩, ⟨[⟨[' ', 'q'], []⟩, ⟨['q'], []⟩]⟩⟩ ∧
    (BrandWorkflowHandler
        (.ok ⟨⟨[]⟩, ⟨[]⟩, ⟨[⟨[' ', 'q'], []⟩, ⟨['q'], []⟩]⟩⟩)
        (fun _ => .ok [['s']]) (.error ['D'])).response.queries
      = some (collectAllQueries ⟨⟨[]⟩, ⟨[]⟩, ⟨[⟨[' ', 'q'], []⟩, ⟨['q'], []⟩]⟩⟩) :=
  ⟨(persistFailure_surfaces_computed_work.1 _ (fun _ => .ok [['s']]) _
      ⟨⟨[]⟩, ⟨[]⟩, ⟨[⟨[' ', 'q'], []⟩, ⟨['q'], []⟩]⟩⟩ [['s']] ['D'] rfl rfl rfl).2.1,
   (persistFailure_surfaces_computed_work.1 _ (fun _ => .ok [['s']]) _
      ⟨⟨[]⟩, ⟨[]⟩, ⟨[⟨[' ', 'q'], []⟩, ⟨['q'], []⟩]⟩⟩ [['s']] ['D'] rfl rfl rfl).2.2.2.1⟩

end FoundersToolkit
